import Mathlib

/-!
# fetcher: the client of `client.go`

A shallow embedding of `NewClient`, its two client options, `setClient` and `Client.Do`,
followed by the properties of the retry loop, the hooks and the buffer pool.

Effects that the Go code performs on the outside world (a call on the underlying
`http.Client`, the invocation of a hook, `putBuffer`, the invocation of a client option,
`setClient`) are recorded, in program order, in an event list returned next to the Go
return value.  Counting "how many transport calls" or "was the hook invoked" is counting
events.

Conventions of the embedding:

* a Go pair `(*T, error)` is an `Except Error T`: `.error err` is `nil, err` and `.ok v` is
  `v, nil`; a nil pointer or nil error inside a struct is `none`;
* `time.Duration` and Go `int` are `Int` (no arithmetic that could overflow occurs: the
  loop counter `i` stays below `req.maxAttempts`);
* the underlying `http.Client` is a parameter of `Do`: a function giving the answer to the
  `n`-th call; calls, hooks and options are numbered from 0;
* a hook is handed two pointers, `*Request` and `*Response`: it reads and may rewrite the
  request and the response wrapper, and what it writes reaches the hooks after it and the
  caller of `Do`; a client option reads and may rewrite the client in the same way; that
  hooks and options are invoked, in which order and on which values, is read from the
  event list.
-/

set_option autoImplicit false

namespace Fetcher

/-! ## Data model -/

/-- A Go `error` value (non-nil), identified by its message. -/
structure Error where
  msg : String
  deriving DecidableEq, Repr

deriving instance DecidableEq for Except

/-- The `context.Context` as the client reads it: `Err` is the value of `c.Err()`,
`none` for a nil error. -/
structure Context where
  Err : Option Error
  deriving DecidableEq, Repr

/-- Go `time.Duration`: a count of nanoseconds. -/
abbrev Duration := Int

/-- Go `time.Second`. -/
def Second : Duration := 1000000000

/-- The `http.Client` literal built by `setClient`: its transport uses
`http.ProxyFromEnvironment`, a `net.Dialer` with `KeepAlive`, and `TLSHandshakeTimeout`. -/
structure HttpClient where
  KeepAlive : Duration
  TLSHandshakeTimeout : Duration
  deriving DecidableEq, Repr

/-- The `Client` struct (client.go, lines 14-19); `client` is a pointer, `none` when nil. -/
structure Client where
  client : Option HttpClient
  keepAlive : Duration
  handshakeTimeout : Duration
  deriving DecidableEq, Repr

/-- The type `ClientOption`, `func(c context.Context, cl *Client) error`: an option may
write to `*cl` and returns an error or nil; here it returns the client it leaves behind
together with the error. -/
abbrev ClientOption := Context → Client → Client × Option Error

/-- The option `ClientWithKeepAlive` (lines 140-145). -/
def ClientWithKeepAlive (dur : Duration) : ClientOption :=
  fun _ cl => ({ cl with keepAlive := dur }, none)

/-- The option `ClientWithHandshakeTimeout` (lines 148-153). -/
def ClientWithHandshakeTimeout (dur : Duration) : ClientOption :=
  fun _ cl => ({ cl with handshakeTimeout := dur }, none)

/-- The method `setClient` (lines 156-166): builds the `http.Client` from the two fields. -/
def setClient (cl : Client) : Client :=
  { cl with client := some { KeepAlive := cl.keepAlive, TLSHandshakeTimeout := cl.handshakeTimeout } }

/-- What `NewClient` does besides returning: invoking the option at a position of `opts`,
and calling `setClient`. -/
inductive ClientEvent where
  | applyOption (idx : Nat)
  | setClient
  deriving DecidableEq, Repr

/-- Return value of `NewClient` (`.error err` stands for `nil, err`) and its events. -/
structure NewClientOutcome where
  result : Except Error Client
  events : List ClientEvent
  deriving DecidableEq

/-- The loop of `NewClient` (lines 31-35) over the options still to run; `idx` is the
position of the head of the list in `opts`. -/
def applyOptions (c : Context) : List ClientOption → Nat → Client → Except Error Client × List ClientEvent
  | [], _, cl => (.ok cl, [])
  | opt :: rest, idx, cl =>
    match opt c cl with
    | (_, some err) => (.error err, [.applyOption idx])
    | (cl1, none) =>
      match applyOptions c rest (idx + 1) cl1 with
      | (r, evs) => (r, .applyOption idx :: evs)

/-- The literal `&Client{...}` of lines 23-26. -/
def initialClient : Client :=
  { client := none, keepAlive := 60 * Second, handshakeTimeout := 10 * Second }

/-- The constructor `NewClient` (lines 22-40). -/
def NewClient (c : Context) (opts : List ClientOption) : NewClientOutcome :=
  match applyOptions c opts 0 initialClient with
  | (.error err, evs) => { result := .error err, events := evs }
  | (.ok cl1, evs) => { result := .ok (setClient cl1), events := evs ++ [.setClient] }

/-- The `*http.Request` held by a request: `ctx` is the context bound to it. -/
structure HttpRequest where
  Method : String
  URL : String
  ctx : Context
  deriving DecidableEq, Repr

/-- The method `(*http.Request).WithContext`: a copy of the request bound to `c`. -/
def HttpRequest.WithContext (r : HttpRequest) (c : Context) : HttpRequest :=
  { r with ctx := c }

/-- The `*http.Response` returned by the underlying client; `Do` reads `StatusCode`. -/
structure HttpResponse where
  StatusCode : Int
  Body : String
  deriving DecidableEq, Repr

/-- Modelled from the spec: the `Response` struct (the ResponseWrapper) is declared outside
client.go; `Do` uses its single field `response`, nil in a fresh `&Response{}`. -/
structure Response where
  response : Option HttpResponse
  deriving DecidableEq, Repr

/-- The dynamic type of `req.payload` (an `io.Reader`): nil, a `*bytes.Buffer` taken from
the pool (identified by a number), or any other reader. -/
inductive Payload where
  | absent
  | buffer (id : Nat)
  | reader (id : Nat)
  deriving DecidableEq, Repr

/-- Modelled from the spec: the `Request` struct (the RequestDescriptor) is declared outside
client.go; these are the fields of it that `Do` reads or writes, except the hook list,
which `Request` adds (a hook takes the request, so the hook list cannot be a field of the
type the hooks range over). -/
structure RequestData where
  client : Option Client
  request : HttpRequest
  payload : Payload
  maxAttempts : Int
  deriving DecidableEq, Repr

/-- What a hook leaves behind: the request and the wrapper behind its two pointer
arguments as they are when the hook returns, and the error it returns (`none` for nil). -/
structure HookReturn where
  req : RequestData
  resp : Response
  err : Option Error
  deriving DecidableEq, Repr

/-- An element of `req.afterDoFuncs`, `func(req *Request, resp *Response) error`: from the
request and the wrapper it finds behind the two pointers to what it leaves behind. -/
abbrev AfterDoFunc := RequestData → Response → HookReturn

/-- Modelled from the spec: the `Request` struct with its ordered hook list
`afterDoFuncs`. -/
structure Request extends RequestData where
  afterDoFuncs : List AfterDoFunc

/-- The underlying `cl.client.Do`: the answer to the `n`-th call (counted from 0) made
with request `reqc`, either a transport error or a response. -/
abbrev Transport := Nat → HttpRequest → Except Error HttpResponse

/-- What `Do` does besides returning: call number `n` on the underlying client, the
invocation of the hook at position `idx` with the request and the wrapper it finds behind
its two arguments, and `putBuffer`. -/
inductive Event where
  | roundTrip (n : Nat) (reqc : HttpRequest)
  | afterDo (idx : Nat) (req : RequestData) (resp : Response)
  | putBuffer (buf : Nat)
  deriving DecidableEq, Repr

/-- Return value of `Do` (`.error err` stands for `nil, err`) and its events. -/
structure DoOutcome where
  result : Except Error Response
  events : List Event
  deriving DecidableEq

/-- The attempt loop of `Do` (lines 58-70).  The first argument is the number of values
of `i` still to come for which `i < req.maxAttempts` holds, the second is `i`, the third
the wrapper `resp`.  The result is the error of line 61 or the wrapper at loop exit. -/
def attemptLoop (net : Transport) (reqc : HttpRequest) :
    Nat → Nat → Response → Except Error Response × List Event
  | 0, _, resp => (.ok resp, [])
  | left + 1, i, resp =>
    match net i reqc with
    | .error err => (.error err, [.roundTrip i reqc])
    | .ok r =>
      if r.StatusCode < 500 then
        (.ok { resp with response := some r }, [.roundTrip i reqc])
      else
        match attemptLoop net reqc left (i + 1) { resp with response := some r } with
        | (res, evs) => (res, .roundTrip i reqc :: evs)

/-- The hook loop of `Do` (lines 73-77) over the hooks still to run; `idx` is the position
of the head of the list in `req.afterDoFuncs`, `req` and `resp` are the request and the
wrapper as they are now.  The result is the error of line 75, or the wrapper as it is when
the loop runs to its end (what line 79 returns). -/
def runAfterDo : List AfterDoFunc → Nat → RequestData → Response →
    Except Error Response × List Event
  | [], _, _, resp => (.ok resp, [])
  | afterDo :: rest, idx, req, resp =>
    match (afterDo req resp).err with
    | some err => (.error err, [.afterDo idx req resp])
    | none =>
      match runAfterDo rest (idx + 1) (afterDo req resp).req (afterDo req resp).resp with
      | (r, evs) => (r, .afterDo idx req resp :: evs)

/-- The deferred call of lines 52-54, run when `Do` returns after line 54; its argument
`buf` is fixed when the `defer` statement runs, before any hook. -/
def deferred (p : Payload) : List Event :=
  match p with
  | .buffer buf => [.putBuffer buf]
  | _ => []

/-- The method `Client.Do` (lines 42-80); `net` answers the calls `cl.client.Do(reqc)`. -/
def Do (net : Transport) (cl : Client) (c : Context) (req : Request) : DoOutcome :=
  match c.Err with
  | some err => { result := .error err, events := [] }
  | none =>
    let req1 : RequestData := { req.toRequestData with client := some cl }
    let reqc := req.request.WithContext c
    match attemptLoop net reqc req.maxAttempts.toNat 0 { response := none } with
    | (.error err, evs) => { result := .error err, events := evs ++ deferred req.payload }
    | (.ok resp, evs) =>
      match runAfterDo req.afterDoFuncs 0 req1 resp with
      | (.error err, hevs) => { result := .error err, events := evs ++ hevs ++ deferred req.payload }
      | (.ok resp1, hevs) => { result := .ok resp1, events := evs ++ hevs ++ deferred req.payload }

/-! ## Reference notions for the hooks -/

/-- What each hook of the list returns when the hooks run in order from `req` and `resp`,
each one on the request and the wrapper that the hooks before it leave behind. -/
def hookReturns : List AfterDoFunc → RequestData → Response → List (Option Error)
  | [], _, _ => []
  | h :: rest, req, resp => (h req resp).err :: hookReturns rest (h req resp).req (h req resp).resp

/-- The wrapper as the hooks of the list leave it when they run in order from `req` and
`resp`. -/
def afterHooks : List AfterDoFunc → RequestData → Response → Response
  | [], _, resp => resp
  | h :: rest, req, resp => afterHooks rest (h req resp).req (h req resp).resp

/-- The events of invoking the hooks of the list in order, the first at position `idx` on
`req` and `resp`, each later one on what the hook before it leaves behind. -/
def hookEvents : List AfterDoFunc → Nat → RequestData → Response → List Event
  | [], _, _, _ => []
  | h :: rest, idx, req, resp =>
    .afterDo idx req resp :: hookEvents rest (idx + 1) (h req resp).req (h req resp).resp

/-- A hook that writes to neither the request nor the wrapper. -/
def AfterDoFunc.readOnly (h : AfterDoFunc) : Prop :=
  ∀ req resp, (h req resp).req = req ∧ (h req resp).resp = resp

/-! ## Reference notions for the client options -/

/-- One of the two options that client.go defines. -/
inductive OptionSpec where
  | keepAlive (dur : Duration)
  | handshakeTimeout (dur : Duration)
  deriving DecidableEq, Repr

/-- The `ClientOption` an `OptionSpec` stands for. -/
def OptionSpec.toOption : OptionSpec → ClientOption
  | .keepAlive dur => ClientWithKeepAlive dur
  | .handshakeTimeout dur => ClientWithHandshakeTimeout dur

/-- Duration of the last `ClientWithKeepAlive` of the list, if there is one. -/
def lastKeepAlive : List OptionSpec → Option Duration
  | [] => none
  | .keepAlive dur :: rest => some ((lastKeepAlive rest).getD dur)
  | .handshakeTimeout _ :: rest => lastKeepAlive rest

/-- Duration of the last `ClientWithHandshakeTimeout` of the list, if there is one. -/
def lastHandshakeTimeout : List OptionSpec → Option Duration
  | [] => none
  | .handshakeTimeout dur :: rest => some ((lastHandshakeTimeout rest).getD dur)
  | .keepAlive _ :: rest => lastHandshakeTimeout rest

/-- What each option of the list returns when the options run in order from `cl`, each
one on the client that the options before it leave behind. -/
def optionReturns (c : Context) : List ClientOption → Client → List (Option Error)
  | [], _ => []
  | opt :: rest, cl => (opt c cl).2 :: optionReturns c rest (opt c cl).1

/-- The events of invoking the options at positions `start, ..., start+cnt-1`. -/
def optionEvents (start cnt : Nat) : List ClientEvent :=
  (List.range cnt).map fun m => ClientEvent.applyOption (start + m)

/-! ## Observations on event lists -/

/-- Number of calls made on the underlying client. -/
def transportCalls (evs : List Event) : Nat :=
  evs.countP fun e => match e with
    | .roundTrip _ _ => true
    | _ => false

/-- Positions of the hooks invoked, in order of invocation. -/
def hookCalls (evs : List Event) : List Nat :=
  evs.filterMap fun e => match e with
    | .afterDo idx _ _ => some idx
    | _ => none

/-- Buffers handed to `putBuffer`, in order. -/
def putBufferCalls (evs : List Event) : List Nat :=
  evs.filterMap fun e => match e with
    | .putBuffer buf => some buf
    | _ => none

/-- The events of calls `start, start+1, ..., start+cnt-1` on the underlying client. -/
def roundTrips (reqc : HttpRequest) (start cnt : Nat) : List Event :=
  (List.range cnt).map fun m => Event.roundTrip (start + m) reqc

/-- The events of invoking hooks `start, ..., start+cnt-1`, each with `req` and `resp`. -/
def afterDos (req : RequestData) (resp : Response) (start cnt : Nat) : List Event :=
  (List.range cnt).map fun m => Event.afterDo (start + m) req resp

/-! ## Stubs used in the concrete instances -/

/-- A context that is not cancelled. -/
def liveCtx : Context := { Err := none }

/-- A cancelled context (`context.Canceled`). -/
def cancelledCtx : Context := { Err := some ⟨"context canceled"⟩ }

/-- A stub transport that answers the calls with the given list of answers, then with
status 200. -/
def scripted (answers : List (Except Error HttpResponse)) : Transport :=
  fun n _ => answers.getD n (.ok { StatusCode := 200, Body := "default" })

/-- A response with the given status whose body tells the call it answers. -/
def reply (status : Int) (body : String) : Except Error HttpResponse :=
  .ok { StatusCode := status, Body := body }

/-- A client as `NewClient` returns it with no options. -/
def stubClient : Client :=
  setClient initialClient

/-- A GET request with the given attempt limit, payload and hooks. -/
def stubRequest (maxAttempts : Int) (p : Payload) (hooks : List AfterDoFunc) : Request :=
  { client := none, request := { Method := "GET", URL := "http://example.test/", ctx := liveCtx },
    payload := p, maxAttempts := maxAttempts, afterDoFuncs := hooks }

/-- A hook that succeeds and writes nothing. -/
def okHook : AfterDoFunc := fun req resp => { req := req, resp := resp, err := none }

/-- A hook that fails with the given message and writes nothing. -/
def failHook (m : String) : AfterDoFunc :=
  fun req resp => { req := req, resp := resp, err := some ⟨m⟩ }

/-- A hook that succeeds after replacing the response held by the wrapper
(`resp.response = ...`). -/
def rewriteHook (status : Int) (body : String) : AfterDoFunc :=
  fun req _ => { req := req, resp := { response := some { StatusCode := status, Body := body } },
                 err := none }

/-- An option that fails with the given message and leaves the client as it is. -/
def failOption (m : String) : ClientOption := fun _ cl => (cl, some ⟨m⟩)

/-! ## Lemmas on `NewClient` -/

theorem optionEvents_zero (start : Nat) : optionEvents start 0 = [] := rfl

theorem optionEvents_succ (start cnt : Nat) :
    optionEvents start (cnt + 1) = .applyOption start :: optionEvents (start + 1) cnt := by
  simp [optionEvents, List.range_succ_eq_map, List.map_map, Function.comp_def,
    Nat.add_assoc, Nat.add_comm 1]

theorem applyOptions_specs (c : Context) (specs : List OptionSpec) (idx : Nat) (cl : Client) :
    ∃ cl1, applyOptions c (specs.map OptionSpec.toOption) idx cl
        = (.ok cl1, optionEvents idx specs.length)
      ∧ cl1.keepAlive = (lastKeepAlive specs).getD cl.keepAlive
      ∧ cl1.handshakeTimeout = (lastHandshakeTimeout specs).getD cl.handshakeTimeout
      ∧ cl1.client = cl.client := by
  induction specs generalizing idx cl with
  | nil => exact ⟨cl, by simp [applyOptions, optionEvents, lastKeepAlive, lastHandshakeTimeout]⟩
  | cons s rest ih =>
    cases s with
    | keepAlive d =>
      obtain ⟨cl1, h1, h2, h3, h4⟩ := ih (idx + 1) { cl with keepAlive := d }
      refine ⟨cl1, ?_, ?_, ?_, ?_⟩
      · simp only [List.map_cons, OptionSpec.toOption, applyOptions, ClientWithKeepAlive, h1,
          List.length_cons, optionEvents_succ]
      · rw [h2]; simp [lastKeepAlive]
      · rw [h3]; simp [lastHandshakeTimeout]
      · rw [h4]
    | handshakeTimeout d =>
      obtain ⟨cl1, h1, h2, h3, h4⟩ := ih (idx + 1) { cl with handshakeTimeout := d }
      refine ⟨cl1, ?_, ?_, ?_, ?_⟩
      · simp only [List.map_cons, OptionSpec.toOption, applyOptions, ClientWithHandshakeTimeout,
          h1, List.length_cons, optionEvents_succ]
      · rw [h2]; simp [lastKeepAlive]
      · rw [h3]; simp [lastHandshakeTimeout]
      · rw [h4]

theorem applyOptions_first_error (c : Context) (opts : List ClientOption) (idx : Nat)
    (cl : Client) (i : Nat) (e : Error)
    (hbefore : ∀ j, j < i → (optionReturns c opts cl)[j]? = some none)
    (hat : (optionReturns c opts cl)[i]? = some (some e)) :
    applyOptions c opts idx cl = (.error e, optionEvents idx (i + 1)) := by
  induction opts generalizing idx cl i with
  | nil => simp [optionReturns] at hat
  | cons opt rest ih =>
    rcases hopt : opt c cl with ⟨cl1, r⟩
    cases i with
    | zero =>
      simp [optionReturns, hopt] at hat
      subst hat
      simp [applyOptions, hopt, optionEvents_succ, optionEvents_zero]
    | succ i =>
      have h0 := hbefore 0 (Nat.succ_pos i)
      simp [optionReturns, hopt] at h0
      subst h0
      have hb : ∀ j, j < i → (optionReturns c rest cl1)[j]? = some none := by
        intro j hj
        have := hbefore (j + 1) (Nat.succ_lt_succ hj)
        simpa [optionReturns, hopt] using this
      have ha : (optionReturns c rest cl1)[i]? = some (some e) := by
        simpa [optionReturns, hopt] using hat
      simp only [applyOptions, hopt, ih (idx + 1) cl1 i hb ha]
      rw [optionEvents_succ idx (i + 1)]

theorem applyOptions_ok_iff (c : Context) (opts : List ClientOption) (idx : Nat) (cl : Client) :
    (∃ cl1, (applyOptions c opts idx cl).1 = .ok cl1)
      ↔ ∀ r ∈ optionReturns c opts cl, r = none := by
  induction opts generalizing idx cl with
  | nil => simp [applyOptions, optionReturns]
  | cons opt rest ih =>
    rcases hopt : opt c cl with ⟨cl1, r⟩
    cases r with
    | some err => simp [applyOptions, optionReturns, hopt]
    | none =>
      have := ih (idx + 1) cl1
      simp only [applyOptions, optionReturns, hopt, List.mem_cons, forall_eq_or_imp, true_and]
      exact this

/-! ## Lemmas on the attempt loop -/

theorem roundTrips_zero (reqc : HttpRequest) (start : Nat) : roundTrips reqc start 0 = [] := rfl

theorem roundTrips_succ (reqc : HttpRequest) (start cnt : Nat) :
    roundTrips reqc start (cnt + 1) = .roundTrip start reqc :: roundTrips reqc (start + 1) cnt := by
  simp [roundTrips, List.range_succ_eq_map, List.map_map, Function.comp_def,
    Nat.add_assoc, Nat.add_comm 1]

theorem afterDos_zero (req : RequestData) (resp : Response) (start : Nat) :
    afterDos req resp start 0 = [] := rfl

theorem afterDos_succ (req : RequestData) (resp : Response) (start cnt : Nat) :
    afterDos req resp start (cnt + 1)
      = .afterDo start req resp :: afterDos req resp (start + 1) cnt := by
  simp [afterDos, List.range_succ_eq_map, List.map_map, Function.comp_def,
    Nat.add_assoc, Nat.add_comm 1]

/-- The loop stops at the first answer below 500 and keeps that answer. -/
theorem attemptLoop_stop (net : Transport) (reqc : HttpRequest) (k : Nat) :
    ∀ (left i : Nat) (resp : Response) (rk : HttpResponse), k < left →
      (∀ m, m < k → ∃ r, net (i + m) reqc = .ok r ∧ 500 ≤ r.StatusCode) →
      net (i + k) reqc = .ok rk → rk.StatusCode < 500 →
      attemptLoop net reqc left i resp = (.ok { response := some rk }, roundTrips reqc i (k + 1)) := by
  induction k with
  | zero =>
    intro left i resp rk hk _ hat hlt
    obtain ⟨left, rfl⟩ : ∃ l, left = l + 1 := ⟨left - 1, by omega⟩
    simp only [Nat.add_zero] at hat
    simp [attemptLoop, hat, hlt, roundTrips_succ, roundTrips_zero]
  | succ k ih =>
    intro left i resp rk hk hbefore hat hlt
    obtain ⟨left, rfl⟩ : ∃ l, left = l + 1 := ⟨left - 1, by omega⟩
    obtain ⟨r0, hr0, hs0⟩ := hbefore 0 (Nat.succ_pos k)
    simp only [Nat.add_zero] at hr0
    have hb : ∀ m, m < k → ∃ r, net (i + 1 + m) reqc = .ok r ∧ 500 ≤ r.StatusCode := by
      intro m hm
      have := hbefore (m + 1) (Nat.succ_lt_succ hm)
      simpa [Nat.add_assoc, Nat.add_comm 1] using this
    have ha : net (i + 1 + k) reqc = .ok rk := by
      simpa [Nat.add_assoc, Nat.add_comm 1] using hat
    have hrec := ih left (i + 1) { response := some r0 } rk (by omega) hb ha hlt
    have hnot : ¬ r0.StatusCode < 500 := by omega
    simp only [attemptLoop, hr0, hnot, if_false, hrec]
    rw [roundTrips_succ reqc i (k + 1)]

/-- The loop returns at the first transport error. -/
theorem attemptLoop_error (net : Transport) (reqc : HttpRequest) (k : Nat) :
    ∀ (left i : Nat) (resp : Response) (e : Error), k < left →
      (∀ m, m < k → ∃ r, net (i + m) reqc = .ok r ∧ 500 ≤ r.StatusCode) →
      net (i + k) reqc = .error e →
      attemptLoop net reqc left i resp = (.error e, roundTrips reqc i (k + 1)) := by
  induction k with
  | zero =>
    intro left i resp e hk _ hat
    obtain ⟨left, rfl⟩ : ∃ l, left = l + 1 := ⟨left - 1, by omega⟩
    simp only [Nat.add_zero] at hat
    simp [attemptLoop, hat, roundTrips_succ, roundTrips_zero]
  | succ k ih =>
    intro left i resp e hk hbefore hat
    obtain ⟨left, rfl⟩ : ∃ l, left = l + 1 := ⟨left - 1, by omega⟩
    obtain ⟨r0, hr0, hs0⟩ := hbefore 0 (Nat.succ_pos k)
    simp only [Nat.add_zero] at hr0
    have hb : ∀ m, m < k → ∃ r, net (i + 1 + m) reqc = .ok r ∧ 500 ≤ r.StatusCode := by
      intro m hm
      have := hbefore (m + 1) (Nat.succ_lt_succ hm)
      simpa [Nat.add_assoc, Nat.add_comm 1] using this
    have ha : net (i + 1 + k) reqc = .error e := by
      simpa [Nat.add_assoc, Nat.add_comm 1] using hat
    have hrec := ih left (i + 1) { response := some r0 } e (by omega) hb ha
    have hnot : ¬ r0.StatusCode < 500 := by omega
    simp only [attemptLoop, hr0, hnot, if_false, hrec]
    rw [roundTrips_succ reqc i (k + 1)]

/-- When every answer is 500 or above the loop uses all its attempts and keeps the last
answer. -/
theorem attemptLoop_exhaust (net : Transport) (reqc : HttpRequest) (n : Nat) :
    ∀ (i : Nat) (resp : Response) (rn : HttpResponse),
      (∀ m, m < n + 1 → ∃ r, net (i + m) reqc = .ok r ∧ 500 ≤ r.StatusCode) →
      net (i + n) reqc = .ok rn →
      attemptLoop net reqc (n + 1) i resp = (.ok { response := some rn }, roundTrips reqc i (n + 1)) := by
  induction n with
  | zero =>
    intro i resp rn hall hat
    obtain ⟨r0, hr0, hs0⟩ := hall 0 (by omega)
    simp only [Nat.add_zero] at hat hr0
    have hnot : ¬ r0.StatusCode < 500 := by omega
    have : r0 = rn := by rw [hr0] at hat; exact Except.ok.inj hat
    subst this
    simp [attemptLoop, hr0, hnot, roundTrips_succ, roundTrips_zero]
  | succ n ih =>
    intro i resp rn hall hat
    obtain ⟨r0, hr0, hs0⟩ := hall 0 (by omega)
    simp only [Nat.add_zero] at hr0
    have hb : ∀ m, m < n + 1 → ∃ r, net (i + 1 + m) reqc = .ok r ∧ 500 ≤ r.StatusCode := by
      intro m hm
      have := hall (m + 1) (Nat.succ_lt_succ hm)
      simpa [Nat.add_assoc, Nat.add_comm 1] using this
    have ha : net (i + 1 + n) reqc = .ok rn := by
      simpa [Nat.add_assoc, Nat.add_comm 1] using hat
    have hrec := ih (i + 1) { response := some r0 } rn hb ha
    have hnot : ¬ r0.StatusCode < 500 := by omega
    rw [attemptLoop]
    simp only [hr0, hnot, if_false, hrec]
    rw [roundTrips_succ reqc i (n + 1)]

/-- Shape of any run of the loop: it makes calls `i, i+1, ...`, at most `left` of them and
at least one when `left` is positive; when it exits without error the wrapper holds the
answer to the last call (or is untouched when no call was made). -/
theorem attemptLoop_shape (net : Transport) (reqc : HttpRequest) (left : Nat) :
    ∀ (i : Nat) (resp : Response), ∃ cnt, cnt ≤ left ∧ (0 < left → 0 < cnt) ∧
      (attemptLoop net reqc left i resp).2 = roundTrips reqc i cnt ∧
      ∀ resp1, (attemptLoop net reqc left i resp).1 = .ok resp1 →
        (cnt = 0 ∧ resp1 = resp) ∨
        (∃ n r, cnt = n + 1 ∧ net (i + n) reqc = .ok r ∧ resp1 = { response := some r }) := by
  induction left with
  | zero =>
    intro i resp
    refine ⟨0, le_refl _, fun h => absurd h (lt_irrefl _), by simp [attemptLoop, roundTrips_zero], ?_⟩
    intro resp1 h
    left
    simp only [attemptLoop] at h
    exact ⟨rfl, (Except.ok.inj h).symm⟩
  | succ left ih =>
    intro i resp
    cases hnet : net i reqc with
    | error e =>
      refine ⟨1, by omega, fun _ => Nat.one_pos, ?_, ?_⟩
      · simp [attemptLoop, hnet, roundTrips_succ, roundTrips_zero]
      · intro resp1 h
        simp [attemptLoop, hnet] at h
    | ok r =>
      by_cases hlt : r.StatusCode < 500
      · refine ⟨1, by omega, fun _ => Nat.one_pos, ?_, ?_⟩
        · simp [attemptLoop, hnet, hlt, roundTrips_succ, roundTrips_zero]
        · intro resp1 h
          right
          simp only [attemptLoop, hnet, hlt, if_true] at h
          exact ⟨0, r, rfl, by simpa using hnet, (Except.ok.inj h).symm⟩
      · obtain ⟨cnt, hle, _, hevs, hres⟩ := ih (i + 1) { response := some r }
        refine ⟨cnt + 1, by omega, fun _ => Nat.succ_pos _, ?_, ?_⟩
        · simp only [attemptLoop, hnet, hlt, if_false]
          rw [hevs, roundTrips_succ]
        · intro resp1 h
          right
          simp only [attemptLoop, hnet, hlt, if_false] at h
          rcases hres resp1 h with ⟨h0, h1⟩ | ⟨n, r1, hn, hr1, h1⟩
          · exact ⟨0, r, by omega, by simpa using hnet, h1⟩
          · refine ⟨n + 1, r1, by omega, ?_, h1⟩
            simpa [Nat.add_assoc, Nat.add_comm 1] using hr1

/-! ## Lemmas on the hook loop -/

theorem runAfterDo_all_ok (hooks : List AfterDoFunc) :
    ∀ (idx : Nat) (req : RequestData) (resp : Response),
      (∀ r ∈ hookReturns hooks req resp, r = none) →
      runAfterDo hooks idx req resp
        = (.ok (afterHooks hooks req resp), hookEvents hooks idx req resp) := by
  induction hooks with
  | nil => intro idx req resp _; rfl
  | cons h rest ih =>
    intro idx req resp hall
    have h0 : (h req resp).err = none := hall _ (by simp [hookReturns])
    have hrest := ih (idx + 1) (h req resp).req (h req resp).resp
      (fun r hr => hall r (by simp [hookReturns, hr]))
    simp only [runAfterDo, h0, hrest, afterHooks, hookEvents]

theorem runAfterDo_first_error (hooks : List AfterDoFunc) :
    ∀ (idx : Nat) (req : RequestData) (resp : Response) (i : Nat) (e : Error),
      (∀ j, j < i → (hookReturns hooks req resp)[j]? = some none) →
      (hookReturns hooks req resp)[i]? = some (some e) →
      runAfterDo hooks idx req resp
        = (.error e, hookEvents (hooks.take (i + 1)) idx req resp) := by
  induction hooks with
  | nil => intro idx req resp i e _ hat; simp [hookReturns] at hat
  | cons h rest ih =>
    intro idx req resp i e hbefore hat
    cases i with
    | zero =>
      have h0 : (h req resp).err = some e := by simpa [hookReturns] using hat
      simp [runAfterDo, h0, hookEvents]
    | succ i =>
      have h0 : (h req resp).err = none := by
        simpa [hookReturns] using hbefore 0 (Nat.succ_pos i)
      have hb : ∀ j, j < i →
          (hookReturns rest (h req resp).req (h req resp).resp)[j]? = some none := by
        intro j hj
        simpa [hookReturns] using hbefore (j + 1) (Nat.succ_lt_succ hj)
      have ha : (hookReturns rest (h req resp).req (h req resp).resp)[i]? = some (some e) := by
        simpa [hookReturns] using hat
      have hrest := ih (idx + 1) (h req resp).req (h req resp).resp i e hb ha
      simp only [runAfterDo, h0, hrest, List.take_succ_cons, hookEvents]

theorem runAfterDo_shape (hooks : List AfterDoFunc) :
    ∀ (idx : Nat) (req : RequestData) (resp : Response), ∃ cnt, cnt ≤ hooks.length ∧
      (runAfterDo hooks idx req resp).2 = hookEvents (hooks.take cnt) idx req resp := by
  induction hooks with
  | nil => intro idx req resp; exact ⟨0, le_refl _, rfl⟩
  | cons h rest ih =>
    intro idx req resp
    cases hh : (h req resp).err with
    | some e => exact ⟨1, by simp, by simp [runAfterDo, hh, hookEvents]⟩
    | none =>
      obtain ⟨cnt, hle, hevs⟩ := ih (idx + 1) (h req resp).req (h req resp).resp
      refine ⟨cnt + 1, by simpa using hle, ?_⟩
      simp only [runAfterDo, hh, List.take_succ_cons, hookEvents]
      rw [hevs]

/-- Hooks that leave the wrapper as they find it leave it so together. -/
theorem afterHooks_of_keep (hooks : List AfterDoFunc) :
    ∀ (req : RequestData) (resp : Response),
      (∀ h ∈ hooks, ∀ rq rs, (h rq rs).resp = rs) → afterHooks hooks req resp = resp := by
  induction hooks with
  | nil => intro req resp _; rfl
  | cons h rest ih =>
    intro req resp hkeep
    simp only [afterHooks]
    rw [ih _ _ (fun g hg => hkeep g (List.mem_cons_of_mem _ hg)),
      hkeep h (List.mem_cons_self _ _)]

/-- Hooks that write nothing are all invoked on the same request and wrapper. -/
theorem hookEvents_of_readOnly (hooks : List AfterDoFunc) :
    ∀ (idx : Nat) (req : RequestData) (resp : Response),
      (∀ h ∈ hooks, h.readOnly) →
      hookEvents hooks idx req resp = afterDos req resp idx hooks.length := by
  induction hooks with
  | nil => intro idx req resp _; rfl
  | cons h rest ih =>
    intro idx req resp hro
    have h0 := hro h (List.mem_cons_self _ _) req resp
    simp only [hookEvents, List.length_cons]
    rw [h0.1, h0.2, ih _ _ _ (fun g hg => hro g (List.mem_cons_of_mem _ hg)), afterDos_succ]

/-! ## Lemmas on counting events -/

theorem transportCalls_append (a b : List Event) :
    transportCalls (a ++ b) = transportCalls a + transportCalls b := by
  simp [transportCalls, List.countP_append]

theorem transportCalls_roundTrips (reqc : HttpRequest) (cnt : Nat) :
    ∀ start, transportCalls (roundTrips reqc start cnt) = cnt := by
  induction cnt with
  | zero => intro start; rfl
  | succ n ih =>
    intro start
    rw [roundTrips_succ]
    have := ih (start + 1)
    simp only [transportCalls] at this ⊢
    simp [List.countP_cons, this]

theorem transportCalls_hookEvents (hooks : List AfterDoFunc) :
    ∀ (idx : Nat) (req : RequestData) (resp : Response),
      transportCalls (hookEvents hooks idx req resp) = 0 := by
  induction hooks with
  | nil => intro idx req resp; rfl
  | cons h rest ih =>
    intro idx req resp
    have := ih (idx + 1) (h req resp).req (h req resp).resp
    simp only [transportCalls, hookEvents] at this ⊢
    simp [List.countP_cons, this]

theorem transportCalls_deferred (p : Payload) : transportCalls (deferred p) = 0 := by
  cases p <;> simp [deferred, transportCalls]

theorem hookCalls_append (a b : List Event) :
    hookCalls (a ++ b) = hookCalls a ++ hookCalls b := by
  simp [hookCalls, List.filterMap_append]

theorem hookCalls_roundTrips (reqc : HttpRequest) (cnt : Nat) :
    ∀ start, hookCalls (roundTrips reqc start cnt) = [] := by
  induction cnt with
  | zero => intro start; rfl
  | succ n ih =>
    intro start
    rw [roundTrips_succ]
    have := ih (start + 1)
    simp only [hookCalls] at this ⊢
    simp [List.filterMap_cons, this]

theorem hookCalls_hookEvents (hooks : List AfterDoFunc) :
    ∀ (idx : Nat) (req : RequestData) (resp : Response),
      hookCalls (hookEvents hooks idx req resp) = (List.range hooks.length).map (idx + ·) := by
  induction hooks with
  | nil => intro idx req resp; rfl
  | cons h rest ih =>
    intro idx req resp
    have := ih (idx + 1) (h req resp).req (h req resp).resp
    simp only [hookCalls, hookEvents] at this ⊢
    simp [List.filterMap_cons, this, List.range_succ_eq_map, List.map_map, Function.comp_def,
      Nat.add_assoc, Nat.add_comm 1]

theorem hookCalls_deferred (p : Payload) : hookCalls (deferred p) = [] := by
  cases p <;> simp [deferred, hookCalls]

theorem mem_roundTrips (reqc : HttpRequest) (start cnt n : Nat) :
    Event.roundTrip n reqc ∈ roundTrips reqc start cnt ↔ start ≤ n ∧ n < start + cnt := by
  simp only [roundTrips, List.mem_map, List.mem_range, Event.roundTrip.injEq, and_true]
  constructor
  · rintro ⟨m, hm, rfl⟩; omega
  · rintro ⟨h1, h2⟩; exact ⟨n - start, by omega, by omega⟩

theorem roundTrip_not_mem_hookEvents (reqc : HttpRequest) (n : Nat) (hooks : List AfterDoFunc) :
    ∀ (idx : Nat) (req : RequestData) (resp : Response),
      Event.roundTrip n reqc ∉ hookEvents hooks idx req resp := by
  induction hooks with
  | nil => intro idx req resp; simp [hookEvents]
  | cons h rest ih =>
    intro idx req resp
    simp [hookEvents, ih]

theorem roundTrip_not_mem_deferred (reqc : HttpRequest) (p : Payload) (n : Nat) :
    Event.roundTrip n reqc ∉ deferred p := by
  cases p <;> simp [deferred]

/-! ## Lemmas on `Do` -/

theorem Do_cancelled (net : Transport) (cl : Client) (c : Context) (req : Request) (e : Error)
    (hctx : c.Err = some e) : Do net cl c req = { result := .error e, events := [] } := by
  simp [Do, hctx]

theorem Do_transport_error (net : Transport) (cl : Client) (c : Context) (req : Request)
    (e : Error) (evs : List Event) (hctx : c.Err = none)
    (hloop : attemptLoop net (req.request.WithContext c) req.maxAttempts.toNat 0
      { response := none } = (.error e, evs)) :
    Do net cl c req = { result := .error e, events := evs ++ deferred req.payload } := by
  simp [Do, hctx, hloop]

theorem Do_hook_error (net : Transport) (cl : Client) (c : Context) (req : Request)
    (resp : Response) (e : Error) (evs hevs : List Event) (hctx : c.Err = none)
    (hloop : attemptLoop net (req.request.WithContext c) req.maxAttempts.toNat 0
      { response := none } = (.ok resp, evs))
    (hhooks : runAfterDo req.afterDoFuncs 0 { req.toRequestData with client := some cl } resp
      = (.error e, hevs)) :
    Do net cl c req = { result := .error e, events := evs ++ hevs ++ deferred req.payload } := by
  simp [Do, hctx, hloop, hhooks]

theorem Do_ok (net : Transport) (cl : Client) (c : Context) (req : Request)
    (resp resp1 : Response) (evs hevs : List Event) (hctx : c.Err = none)
    (hloop : attemptLoop net (req.request.WithContext c) req.maxAttempts.toNat 0
      { response := none } = (.ok resp, evs))
    (hhooks : runAfterDo req.afterDoFuncs 0 { req.toRequestData with client := some cl } resp
      = (.ok resp1, hevs)) :
    Do net cl c req = { result := .ok resp1, events := evs ++ hevs ++ deferred req.payload } := by
  simp [Do, hctx, hloop, hhooks]

/-- Shape of the events of any run of `Do` that gets past the context check: the calls on
the underlying client, numbered from 0, then the invocations of the first hooks of the
list, in order, then the deferred `putBuffer`. -/
theorem Do_live_shape (net : Transport) (cl : Client) (c : Context) (req : Request)
    (hctx : c.Err = none) :
    ∃ cnt hcnt resp, cnt ≤ req.maxAttempts.toNat ∧ (0 < req.maxAttempts.toNat → 0 < cnt) ∧
      hcnt ≤ req.afterDoFuncs.length ∧
      (Do net cl c req).events = roundTrips (req.request.WithContext c) 0 cnt
        ++ hookEvents (req.afterDoFuncs.take hcnt) 0
            { req.toRequestData with client := some cl } resp
        ++ deferred req.payload := by
  obtain ⟨cnt, hle, hpos, hevs, _⟩ :=
    attemptLoop_shape net (req.request.WithContext c) req.maxAttempts.toNat 0 { response := none }
  rcases hpair : attemptLoop net (req.request.WithContext c) req.maxAttempts.toNat 0
    { response := none } with ⟨res, evs⟩
  rw [hpair] at hevs
  simp only at hevs
  subst hevs
  cases res with
  | error e =>
    refine ⟨cnt, 0, { response := none }, hle, hpos, Nat.zero_le _, ?_⟩
    rw [Do_transport_error net cl c req e _ hctx hpair]
    simp [hookEvents]
  | ok resp =>
    obtain ⟨hcnt, hhle, hhevs⟩ :=
      runAfterDo_shape req.afterDoFuncs 0 { req.toRequestData with client := some cl } resp
    rcases hhook : runAfterDo req.afterDoFuncs 0 { req.toRequestData with client := some cl }
      resp with ⟨hres, hevs⟩
    rw [hhook] at hhevs
    simp only at hhevs
    subst hhevs
    refine ⟨cnt, hcnt, resp, hle, hpos, hhle, ?_⟩
    cases hres with
    | error e => rw [Do_hook_error net cl c req resp e _ _ hctx hpair hhook]
    | ok resp1 => rw [Do_ok net cl c req resp resp1 _ _ hctx hpair hhook]

theorem putBufferCalls_append (a b : List Event) :
    putBufferCalls (a ++ b) = putBufferCalls a ++ putBufferCalls b := by
  simp [putBufferCalls, List.filterMap_append]

theorem putBufferCalls_roundTrips (reqc : HttpRequest) (start cnt : Nat) :
    putBufferCalls (roundTrips reqc start cnt) = [] := by
  simp [putBufferCalls, roundTrips, List.filterMap_map, Function.comp_def]

theorem putBufferCalls_hookEvents (hooks : List AfterDoFunc) :
    ∀ (idx : Nat) (req : RequestData) (resp : Response),
      putBufferCalls (hookEvents hooks idx req resp) = [] := by
  induction hooks with
  | nil => intro idx req resp; rfl
  | cons h rest ih =>
    intro idx req resp
    have := ih (idx + 1) (h req resp).req (h req resp).resp
    simp only [putBufferCalls, hookEvents] at this ⊢
    simp [List.filterMap_cons, this]

/-- Past the context check the pooled buffer goes back to the pool exactly once, as the
last thing `Do` does. -/
theorem Do_live_putBuffer (net : Transport) (cl : Client) (c : Context) (req : Request)
    (buf : Nat) (hctx : c.Err = none) (hbuf : req.payload = .buffer buf) :
    putBufferCalls (Do net cl c req).events = [buf]
      ∧ (Do net cl c req).events.getLast? = some (.putBuffer buf) := by
  obtain ⟨cnt, hcnt, resp, _, _, _, hevs⟩ := Do_live_shape net cl c req hctx
  rw [hevs, hbuf]
  constructor
  · rw [putBufferCalls_append, putBufferCalls_append, putBufferCalls_roundTrips,
      putBufferCalls_hookEvents]
    rfl
  · simp [deferred]

/-- Behind a cancelled context the pooled buffer is not handed to `putBuffer`. -/
theorem Do_cancelled_putBuffer (net : Transport) (cl : Client) (c : Context) (req : Request)
    (e : Error) (hctx : c.Err = some e) : putBufferCalls (Do net cl c req).events = [] := by
  rw [Do_cancelled net cl c req e hctx]; rfl

/-! ## The properties of `Do` -/

/-- C1: for every client, request and context whose `Err()` is non-nil, `Do` returns no
response and exactly the context's error, and makes no call on the underlying client (it
has no effect at all). -/
theorem Do_cancelled_context_returns_its_error (net : Transport) (cl : Client) (c : Context)
    (req : Request) (e : Error) (hctx : c.Err = some e) :
    (Do net cl c req).result = .error e
      ∧ transportCalls (Do net cl c req).events = 0
      ∧ (Do net cl c req).events = [] := by
  rw [Do_cancelled net cl c req e hctx]
  exact ⟨rfl, rfl, rfl⟩

/-- Instance of C1: a cancelled context, three attempts allowed, two hooks, a pooled
payload. -/
theorem Do_cancelled_context_returns_its_error_witness :
    cancelledCtx.Err = some ⟨"context canceled"⟩
      ∧ (Do (scripted [reply 200 "first"]) stubClient cancelledCtx
          (stubRequest 3 (.buffer 7) [okHook, failHook "hook"])).result
          = .error ⟨"context canceled"⟩
      ∧ transportCalls (Do (scripted [reply 200 "first"]) stubClient cancelledCtx
          (stubRequest 3 (.buffer 7) [okHook, failHook "hook"])).events = 0 :=
  have h := Do_cancelled_context_returns_its_error (scripted [reply 200 "first"]) stubClient
    cancelledCtx (stubRequest 3 (.buffer 7) [okHook, failHook "hook"]) ⟨"context canceled"⟩ rfl
  ⟨rfl, h.1, h.2.1⟩

/-- C2, as the code has it: with `maxAttempts = n` and `1 ≤ k ≤ n`, a context that is not
cancelled, hooks that succeed, and a transport that answers calls `1..k-1` with a status
of 500 or more and call `k` with a status below 500, `Do` makes exactly `k` calls on the
transport, hands the wrapper holding the response of call `k` to the hooks, and returns
without error that wrapper as the hooks leave it; when no hook writes to the wrapper, what
`Do` returns is the response of call `k`.  (Calls are numbered from 0 in `net`.) -/
theorem Do_returns_first_answer_below_500 (net : Transport) (cl : Client) (c : Context)
    (req : Request) (k : Nat) (rk : HttpResponse)
    (hctx : c.Err = none) (hk1 : 1 ≤ k) (hkn : (k : Int) ≤ req.maxAttempts)
    (hbefore : ∀ m, m + 1 < k →
      ∃ r, net m (req.request.WithContext c) = .ok r ∧ 500 ≤ r.StatusCode)
    (hat : net (k - 1) (req.request.WithContext c) = .ok rk) (hlt : rk.StatusCode < 500)
    (hhooks : ∀ r ∈ hookReturns req.afterDoFuncs { req.toRequestData with client := some cl }
      { response := some rk }, r = none) :
    (Do net cl c req).result = .ok (afterHooks req.afterDoFuncs
        { req.toRequestData with client := some cl } { response := some rk })
      ∧ transportCalls (Do net cl c req).events = k
      ∧ (Do net cl c req).events = roundTrips (req.request.WithContext c) 0 k
          ++ hookEvents req.afterDoFuncs 0 { req.toRequestData with client := some cl }
              { response := some rk }
          ++ deferred req.payload
      ∧ ((∀ h ∈ req.afterDoFuncs, ∀ rq rs, (h rq rs).resp = rs) →
          (Do net cl c req).result = .ok { response := some rk }) := by
  obtain ⟨k, rfl⟩ : ∃ k0, k = k0 + 1 := ⟨k - 1, by omega⟩
  have hloop := attemptLoop_stop net (req.request.WithContext c) k req.maxAttempts.toNat 0
    { response := none } rk (by omega)
    (fun m hm => by simpa using hbefore m (by omega)) (by simpa using hat) hlt
  have hh := runAfterDo_all_ok req.afterDoFuncs 0 { req.toRequestData with client := some cl }
    { response := some rk } hhooks
  rw [Do_ok net cl c req _ _ _ _ hctx hloop hh]
  refine ⟨rfl, ?_, rfl, fun hkeep => ?_⟩
  · simp only [transportCalls_append, transportCalls_roundTrips, transportCalls_hookEvents,
      transportCalls_deferred, Nat.add_zero]
  · simp only [afterHooks_of_keep req.afterDoFuncs _ _ hkeep]

/-- Instance of C2: `maxAttempts = 3`, answers 503, 503, 200 and a hook that writes
nothing: the 200 response after exactly 3 calls. -/
theorem Do_returns_first_answer_below_500_witness :
    (Do (scripted [reply 503 "first", reply 503 "second", reply 200 "third"]) stubClient liveCtx
        (stubRequest 3 .absent [okHook])).result
        = .ok { response := some { StatusCode := 200, Body := "third" } }
      ∧ transportCalls (Do (scripted [reply 503 "first", reply 503 "second", reply 200 "third"])
          stubClient liveCtx (stubRequest 3 .absent [okHook])).events = 3 :=
  have h := Do_returns_first_answer_below_500
    (scripted [reply 503 "first", reply 503 "second", reply 200 "third"]) stubClient liveCtx
    (stubRequest 3 .absent [okHook]) 3 { StatusCode := 200, Body := "third" } rfl (by decide)
    (by decide)
    (fun m hm => by
      have hm2 : m < 2 := by omega
      interval_cases m
      · exact ⟨{ StatusCode := 503, Body := "first" }, rfl, by decide⟩
      · exact ⟨{ StatusCode := 503, Body := "second" }, rfl, by decide⟩)
    rfl (by decide) (by decide)
  ⟨h.2.2.2 (by intro g hg rq rs; simp [stubRequest] at hg; subst hg; rfl), h.2.1⟩

/-- Against C2 as the specification states it: `maxAttempts = 1`, the only call is answered with 200, and
the only hook succeeds after putting a 418 response into the wrapper.  The context is not
cancelled, the hook returns nil, exactly one call is made, and `Do` returns the 418
response, not the response of call 1. -/
theorem Do_returns_what_a_succeeding_hook_wrote :
    liveCtx.Err = none
      ∧ scripted [reply 200 "first"] 0
          ((stubRequest 1 .absent [rewriteHook 418 "teapot"]).request.WithContext liveCtx)
          = .ok { StatusCode := 200, Body := "first" }
      ∧ hookReturns [rewriteHook 418 "teapot"]
          { (stubRequest 1 .absent [rewriteHook 418 "teapot"]).toRequestData with
            client := some stubClient }
          { response := some { StatusCode := 200, Body := "first" } } = [none]
      ∧ transportCalls (Do (scripted [reply 200 "first"]) stubClient liveCtx
          (stubRequest 1 .absent [rewriteHook 418 "teapot"])).events = 1
      ∧ (Do (scripted [reply 200 "first"]) stubClient liveCtx
          (stubRequest 1 .absent [rewriteHook 418 "teapot"])).result
          = .ok { response := some { StatusCode := 418, Body := "teapot" } }
      ∧ (Do (scripted [reply 200 "first"]) stubClient liveCtx
          (stubRequest 1 .absent [rewriteHook 418 "teapot"])).result
          ≠ .ok { response := some { StatusCode := 200, Body := "first" } } := by
  decide

/-- C3, as the code has it: with `maxAttempts = n ≥ 1`, a context that is not cancelled,
hooks that succeed and a transport that answers every call with a status of 500 or more,
`Do` makes exactly `n` calls, hands the wrapper holding the response of the `n`-th call
(whose status is still 500 or more) to the hooks, and returns that wrapper as the hooks
leave it, with a nil error; when no hook writes to the wrapper, what `Do` returns is the
response of the `n`-th call. -/
theorem Do_exhausted_returns_last_answer (net : Transport) (cl : Client) (c : Context)
    (req : Request) (rn : HttpResponse)
    (hctx : c.Err = none) (hn : 1 ≤ req.maxAttempts)
    (hall : ∀ m : Nat, (m : Int) < req.maxAttempts →
      ∃ r, net m (req.request.WithContext c) = .ok r ∧ 500 ≤ r.StatusCode)
    (hlast : net (req.maxAttempts.toNat - 1) (req.request.WithContext c) = .ok rn)
    (hhooks : ∀ r ∈ hookReturns req.afterDoFuncs { req.toRequestData with client := some cl }
      { response := some rn }, r = none) :
    (Do net cl c req).result = .ok (afterHooks req.afterDoFuncs
        { req.toRequestData with client := some cl } { response := some rn })
      ∧ (transportCalls (Do net cl c req).events : Int) = req.maxAttempts
      ∧ 500 ≤ rn.StatusCode
      ∧ (Do net cl c req).events
          = roundTrips (req.request.WithContext c) 0 req.maxAttempts.toNat
            ++ hookEvents req.afterDoFuncs 0 { req.toRequestData with client := some cl }
                { response := some rn }
            ++ deferred req.payload
      ∧ ((∀ h ∈ req.afterDoFuncs, ∀ rq rs, (h rq rs).resp = rs) →
          (Do net cl c req).result = .ok { response := some rn }) := by
  obtain ⟨n, hn1⟩ : ∃ n0, req.maxAttempts.toNat = n0 + 1 :=
    ⟨req.maxAttempts.toNat - 1, by omega⟩
  have hloop := attemptLoop_exhaust net (req.request.WithContext c) n 0 { response := none } rn
    (fun m hm => by simpa using hall m (by omega))
    (by rw [hn1] at hlast; simpa using hlast)
  rw [← hn1] at hloop
  have hh := runAfterDo_all_ok req.afterDoFuncs 0 { req.toRequestData with client := some cl }
    { response := some rn } hhooks
  rw [Do_ok net cl c req _ _ _ _ hctx hloop hh]
  refine ⟨rfl, ?_, ?_, rfl, fun hkeep => ?_⟩
  · simp only [transportCalls_append, transportCalls_roundTrips, transportCalls_hookEvents,
      transportCalls_deferred, Nat.add_zero]
    omega
  · obtain ⟨r, hr, hs⟩ := hall (req.maxAttempts.toNat - 1) (by omega)
    rw [hlast] at hr
    rw [Except.ok.inj hr]
    exact hs
  · simp only [afterHooks_of_keep req.afterDoFuncs _ _ hkeep]

/-- Instance of C3: `maxAttempts = 3`, answers 503, 503, 503 and a hook that writes
nothing: the third 503 response, no error, exactly 3 calls. -/
theorem Do_exhausted_returns_last_answer_witness :
    (Do (scripted [reply 503 "first", reply 503 "second", reply 503 "third", reply 503 "fourth"])
        stubClient liveCtx (stubRequest 3 .absent [okHook])).result
        = .ok { response := some { StatusCode := 503, Body := "third" } }
      ∧ (transportCalls (Do
          (scripted [reply 503 "first", reply 503 "second", reply 503 "third", reply 503 "fourth"])
          stubClient liveCtx (stubRequest 3 .absent [okHook])).events : Int) = 3 :=
  have h := Do_exhausted_returns_last_answer
    (scripted [reply 503 "first", reply 503 "second", reply 503 "third", reply 503 "fourth"])
    stubClient liveCtx (stubRequest 3 .absent [okHook]) { StatusCode := 503, Body := "third" }
    rfl (by decide)
    (fun m hm => by
      have hm3 : m < 3 := by
        have : (m : Int) < 3 := hm
        omega
      interval_cases m
      · exact ⟨{ StatusCode := 503, Body := "first" }, rfl, by decide⟩
      · exact ⟨{ StatusCode := 503, Body := "second" }, rfl, by decide⟩
      · exact ⟨{ StatusCode := 503, Body := "third" }, rfl, by decide⟩)
    rfl (by decide)
  ⟨h.2.2.2.2 (by intro g hg rq rs; simp [stubRequest] at hg; subst hg; rfl), h.2.1⟩

/-- Against C3 as the specification states it: `maxAttempts = 3`, every call is answered with 503, and
the only hook succeeds after putting a 200 response into the wrapper.  Exactly three calls
are made, the hook returns nil, and `Do` returns the 200 response the hook wrote, not the
response of the third call. -/
theorem Do_exhausted_returns_what_a_succeeding_hook_wrote :
    hookReturns [rewriteHook 200 "rewritten"]
        { (stubRequest 3 .absent [rewriteHook 200 "rewritten"]).toRequestData with
          client := some stubClient }
        { response := some { StatusCode := 503, Body := "third" } } = [none]
      ∧ transportCalls (Do
          (scripted [reply 503 "first", reply 503 "second", reply 503 "third", reply 503 "fourth"])
          stubClient liveCtx (stubRequest 3 .absent [rewriteHook 200 "rewritten"])).events = 3
      ∧ (Do (scripted [reply 503 "first", reply 503 "second", reply 503 "third", reply 503 "fourth"])
          stubClient liveCtx (stubRequest 3 .absent [rewriteHook 200 "rewritten"])).result
          = .ok { response := some { StatusCode := 200, Body := "rewritten" } }
      ∧ (Do (scripted [reply 503 "first", reply 503 "second", reply 503 "third", reply 503 "fourth"])
          stubClient liveCtx (stubRequest 3 .absent [rewriteHook 200 "rewritten"])).result
          ≠ .ok { response := some { StatusCode := 503, Body := "third" } } := by
  decide

/-- C4: the context is not cancelled, the transport answers calls `1..j-1` with a status
of 500 or more and call `j` with a transport error.  Call `j` is made exactly when
`j ≤ maxAttempts`; and whenever call `j` is made, whatever `maxAttempts` is, `Do` returns
no response and exactly that error, has made exactly `j` calls (the failed call is not
retried), and invokes no hook.  (Calls are numbered from 0 in `net` and in the events.) -/
theorem Do_transport_error_not_retried (net : Transport) (cl : Client) (c : Context)
    (req : Request) (j : Nat) (e : Error)
    (hctx : c.Err = none) (hj : 1 ≤ j)
    (hbefore : ∀ m, m + 1 < j →
      ∃ r, net m (req.request.WithContext c) = .ok r ∧ 500 ≤ r.StatusCode)
    (hat : net (j - 1) (req.request.WithContext c) = .error e) :
    (Event.roundTrip (j - 1) (req.request.WithContext c) ∈ (Do net cl c req).events
        ↔ (j : Int) ≤ req.maxAttempts)
      ∧ (Event.roundTrip (j - 1) (req.request.WithContext c) ∈ (Do net cl c req).events →
          (Do net cl c req).result = .error e
            ∧ transportCalls (Do net cl c req).events = j
            ∧ hookCalls (Do net cl c req).events = []) := by
  obtain ⟨j, rfl⟩ : ∃ j0, j = j0 + 1 := ⟨j - 1, by omega⟩
  simp only [Nat.add_sub_cancel] at hat ⊢
  by_cases hle : ((j + 1 : Nat) : Int) ≤ req.maxAttempts
  · have hloop := attemptLoop_error net (req.request.WithContext c) j req.maxAttempts.toNat 0
      { response := none } e (by omega)
      (fun m hm => by simpa using hbefore m (by omega)) (by simpa using hat)
    rw [Do_transport_error net cl c req e _ hctx hloop]
    have hmem : Event.roundTrip j (req.request.WithContext c)
        ∈ roundTrips (req.request.WithContext c) 0 (j + 1) ++ deferred req.payload :=
      List.mem_append_left _ ((mem_roundTrips _ 0 (j + 1) j).2 ⟨Nat.zero_le _, by omega⟩)
    refine ⟨⟨fun _ => hle, fun _ => hmem⟩, fun _ => ⟨rfl, ?_, ?_⟩⟩
    · simp only [transportCalls_append, transportCalls_roundTrips, transportCalls_deferred,
        Nat.add_zero]
    · simp only [hookCalls_append, hookCalls_roundTrips, hookCalls_deferred, List.append_nil]
  · obtain ⟨cnt, hcnt, resp, hcle, _, _, hevs⟩ := Do_live_shape net cl c req hctx
    have hnot : Event.roundTrip j (req.request.WithContext c) ∉ (Do net cl c req).events := by
      rw [hevs]
      simp only [List.mem_append, not_or]
      refine ⟨⟨?_, roundTrip_not_mem_hookEvents _ _ _ _ _ _⟩, roundTrip_not_mem_deferred _ _ _⟩
      rw [mem_roundTrips]
      omega
    exact ⟨⟨fun h => absurd h hnot, fun h => absurd h hle⟩, fun h => absurd h hnot⟩

/-- Instance of C4: a transport error on the first call, three attempts allowed: the error
is returned after exactly one call and the hook is not invoked. -/
theorem Do_transport_error_not_retried_witness :
    (Do (scripted [.error ⟨"connection refused"⟩, reply 200 "second"]) stubClient liveCtx
        (stubRequest 3 .absent [okHook])).result = .error ⟨"connection refused"⟩
      ∧ transportCalls (Do (scripted [.error ⟨"connection refused"⟩, reply 200 "second"])
          stubClient liveCtx (stubRequest 3 .absent [okHook])).events = 1
      ∧ hookCalls (Do (scripted [.error ⟨"connection refused"⟩, reply 200 "second"])
          stubClient liveCtx (stubRequest 3 .absent [okHook])).events = [] :=
  (Do_transport_error_not_retried
    (scripted [.error ⟨"connection refused"⟩, reply 200 "second"]) stubClient liveCtx
    (stubRequest 3 .absent [okHook]) 1 ⟨"connection refused"⟩ rfl (by decide)
    (fun m hm => absurd hm (by omega)) rfl).2 (by decide)

/-- C5: the attempt loop has finished without a transport error, leaving the wrapper
`resp`, and hook `i` is the first hook that fails when the hooks run in order.  Then `Do`
returns no response and exactly hook `i`'s error, and the hooks invoked are hooks
`0, 1, ..., i`, each once and in this order: no hook after `i` is invoked. -/
theorem Do_first_failing_hook_aborts (net : Transport) (cl : Client) (c : Context)
    (req : Request) (resp : Response) (i : Nat) (e : Error)
    (hctx : c.Err = none)
    (hloop : (attemptLoop net (req.request.WithContext c) req.maxAttempts.toNat 0
      { response := none }).1 = .ok resp)
    (hbefore : ∀ j, j < i → (hookReturns req.afterDoFuncs
      { req.toRequestData with client := some cl } resp)[j]? = some none)
    (hfail : (hookReturns req.afterDoFuncs
      { req.toRequestData with client := some cl } resp)[i]? = some (some e)) :
    (Do net cl c req).result = .error e
      ∧ hookCalls (Do net cl c req).events = List.range (i + 1) := by
  obtain ⟨cnt, _, _, hevs, _⟩ :=
    attemptLoop_shape net (req.request.WithContext c) req.maxAttempts.toNat 0 { response := none }
  rcases hpair : attemptLoop net (req.request.WithContext c) req.maxAttempts.toNat 0
    { response := none } with ⟨res, evs⟩
  rw [hpair] at hevs hloop
  simp only at hevs hloop
  subst hevs hloop
  have hlen : i < req.afterDoFuncs.length := by
    have hl : ∀ (hooks : List AfterDoFunc) (rq : RequestData) (rs : Response),
        (hookReturns hooks rq rs).length = hooks.length := by
      intro hooks
      induction hooks with
      | nil => intro rq rs; rfl
      | cons h rest ih => intro rq rs; simp [hookReturns, ih]
    have := (List.getElem?_eq_some (l := hookReturns req.afterDoFuncs
      { req.toRequestData with client := some cl } resp)).1 hfail
    obtain ⟨hi, _⟩ := this
    rw [hl] at hi
    exact hi
  have hh := runAfterDo_first_error req.afterDoFuncs 0
    { req.toRequestData with client := some cl } resp i e hbefore hfail
  rw [Do_hook_error net cl c req resp e _ _ hctx hpair hh]
  refine ⟨rfl, ?_⟩
  simp only [hookCalls_append, hookCalls_roundTrips, hookCalls_hookEvents, hookCalls_deferred,
    List.append_nil, List.nil_append, Nat.zero_add, List.map_id', List.length_take]
  rw [Nat.min_eq_left (by omega)]

/-- Instance of C5: two hooks, the first fails: its error is returned and the second hook
is never invoked. -/
theorem Do_first_failing_hook_aborts_witness :
    (Do (scripted [reply 200 "first"]) stubClient liveCtx
        (stubRequest 1 .absent [failHook "first hook", okHook])).result
        = .error ⟨"first hook"⟩
      ∧ hookCalls (Do (scripted [reply 200 "first"]) stubClient liveCtx
          (stubRequest 1 .absent [failHook "first hook", okHook])).events = List.range 1 :=
  Do_first_failing_hook_aborts (scripted [reply 200 "first"]) stubClient liveCtx
    (stubRequest 1 .absent [failHook "first hook", okHook])
    { response := some { StatusCode := 200, Body := "first" } } 0
    ⟨"first hook"⟩ rfl (by decide) (fun j hj => absurd hj (by omega)) (by decide)

/-- C6, as the code has it: the attempt loop has finished without a transport error,
leaving the wrapper `resp`, and every hook succeeds.  Then the events of `Do` are, in
order: the calls on the transport, then one invocation of each registered hook, in
registration order, then the deferred `putBuffer`.  The first hook is invoked on the
request (its `client` set by `Do`) and on `resp`, each later hook on the request and the
wrapper as the hook before it leaves them, and `Do` returns the wrapper as the last hook
leaves it.  `resp` holds the answer to the last call when at least one call was made, and
no response when none was made.  When no hook writes to the request or the wrapper, every
hook is invoked on the same request and on `resp`, and `Do` returns `resp`. -/
theorem Do_runs_every_hook_in_order (net : Transport) (cl : Client) (c : Context)
    (req : Request) (resp : Response)
    (hctx : c.Err = none)
    (hloop : (attemptLoop net (req.request.WithContext c) req.maxAttempts.toNat 0
      { response := none }).1 = .ok resp)
    (hhooks : ∀ r ∈ hookReturns req.afterDoFuncs { req.toRequestData with client := some cl }
      resp, r = none) :
    (Do net cl c req).result
        = .ok (afterHooks req.afterDoFuncs { req.toRequestData with client := some cl } resp)
      ∧ (Do net cl c req).events
          = roundTrips (req.request.WithContext c) 0 (transportCalls (Do net cl c req).events)
            ++ hookEvents req.afterDoFuncs 0 { req.toRequestData with client := some cl } resp
            ++ deferred req.payload
      ∧ hookCalls (Do net cl c req).events = List.range req.afterDoFuncs.length
      ∧ (∀ n, transportCalls (Do net cl c req).events = n + 1 →
          ∃ r, net n (req.request.WithContext c) = .ok r ∧ resp = { response := some r })
      ∧ (transportCalls (Do net cl c req).events = 0 → resp = { response := none })
      ∧ ((∀ h ∈ req.afterDoFuncs, h.readOnly) →
          (Do net cl c req).result = .ok resp
            ∧ hookEvents req.afterDoFuncs 0 { req.toRequestData with client := some cl } resp
              = afterDos { req.toRequestData with client := some cl } resp 0
                  req.afterDoFuncs.length) := by
  obtain ⟨cnt, _, _, hevs, hres⟩ :=
    attemptLoop_shape net (req.request.WithContext c) req.maxAttempts.toNat 0 { response := none }
  rcases hpair : attemptLoop net (req.request.WithContext c) req.maxAttempts.toNat 0
    { response := none } with ⟨res, evs⟩
  rw [hpair] at hevs hloop hres
  simp only at hevs hloop hres
  subst hevs hloop
  have hh := runAfterDo_all_ok req.afterDoFuncs 0 { req.toRequestData with client := some cl }
    resp hhooks
  rw [Do_ok net cl c req resp _ _ _ hctx hpair hh]
  have hcalls : transportCalls (roundTrips (req.request.WithContext c) 0 cnt
      ++ hookEvents req.afterDoFuncs 0 { req.toRequestData with client := some cl } resp
      ++ deferred req.payload) = cnt := by
    simp only [transportCalls_append, transportCalls_roundTrips, transportCalls_hookEvents,
      transportCalls_deferred, Nat.add_zero]
  refine ⟨rfl, ?_, ?_, ?_, ?_, fun hro => ⟨?_, ?_⟩⟩
  · simp only [hcalls]
  · simp only [hookCalls_append, hookCalls_roundTrips, hookCalls_hookEvents, hookCalls_deferred,
      List.append_nil, List.nil_append, Nat.zero_add, List.map_id']
  · simp only [hcalls]
    intro n hn
    rcases hres resp rfl with ⟨h0, _⟩ | ⟨n1, r, hn1, hr, hresp⟩
    · omega
    · have : n1 = n := by omega
      subst this
      exact ⟨r, by simpa using hr, hresp⟩
  · simp only [hcalls]
    intro h0
    rcases hres resp rfl with ⟨_, hresp⟩ | ⟨n1, r, hn1, _, _⟩
    · exact hresp
    · omega
  · simp only [afterHooks_of_keep req.afterDoFuncs _ _ (fun h hh rq rs => (hro h hh rq rs).2)]
  · exact hookEvents_of_readOnly req.afterDoFuncs 0 _ resp hro

/-- Instance of C6: answers 503 then 200 with three attempts allowed and two hooks that
succeed and write nothing. -/
theorem Do_runs_every_hook_in_order_witness :
    (Do (scripted [reply 503 "first", reply 200 "second"]) stubClient liveCtx
        (stubRequest 3 (.buffer 7) [okHook, okHook])).result
        = .ok { response := some { StatusCode := 200, Body := "second" } }
      ∧ hookCalls (Do (scripted [reply 503 "first", reply 200 "second"]) stubClient liveCtx
          (stubRequest 3 (.buffer 7) [okHook, okHook])).events = List.range 2 :=
  have h := Do_runs_every_hook_in_order (scripted [reply 503 "first", reply 200 "second"])
    stubClient liveCtx (stubRequest 3 (.buffer 7) [okHook, okHook])
    { response := some { StatusCode := 200, Body := "second" } } rfl (by decide) (by decide)
  ⟨(h.2.2.2.2.2 (by
      intro g hg rq rs
      simp [stubRequest] at hg
      subst hg
      exact ⟨rfl, rfl⟩)).1, h.2.2.1⟩

/-- Against C6 as the specification states it: one call answered with 200, then two hooks that both
succeed, the first after putting a 418 response into the wrapper.  The first hook is
invoked on the wrapper holding the final response, the second on the wrapper holding 418,
and `Do` returns the wrapper holding 418: the hooks do not all see the wrapper holding the
final response, and neither does the caller. -/
theorem Do_second_hook_sees_what_the_first_wrote :
    hookReturns [rewriteHook 418 "teapot", okHook]
        { (stubRequest 1 .absent [rewriteHook 418 "teapot", okHook]).toRequestData with
          client := some stubClient }
        { response := some { StatusCode := 200, Body := "first" } } = [none, none]
      ∧ (Do (scripted [reply 200 "first"]) stubClient liveCtx
          (stubRequest 1 .absent [rewriteHook 418 "teapot", okHook])).events
          = [ .roundTrip 0 { Method := "GET", URL := "http://example.test/", ctx := liveCtx },
              .afterDo 0
                { (stubRequest 1 .absent [rewriteHook 418 "teapot", okHook]).toRequestData with
                  client := some stubClient }
                { response := some { StatusCode := 200, Body := "first" } },
              .afterDo 1
                { (stubRequest 1 .absent [rewriteHook 418 "teapot", okHook]).toRequestData with
                  client := some stubClient }
                { response := some { StatusCode := 418, Body := "teapot" } } ]
      ∧ (Do (scripted [reply 200 "first"]) stubClient liveCtx
          (stubRequest 1 .absent [rewriteHook 418 "teapot", okHook])).result
          = .ok { response := some { StatusCode := 418, Body := "teapot" } } := by
  decide

/-- C7: for every list of options built from `ClientWithKeepAlive` and
`ClientWithHandshakeTimeout`, `NewClient` returns a client whose `keepAlive` is the
duration of the last `ClientWithKeepAlive` of the list, or 60 seconds if there is none,
and whose `handshakeTimeout` is the duration of the last `ClientWithHandshakeTimeout`, or
10 seconds if there is none; and an option for one field leaves the other field as it
finds it. -/
theorem NewClient_last_option_of_each_field_wins (c : Context) (specs : List OptionSpec) :
    (∃ cl, (NewClient c (specs.map OptionSpec.toOption)).result = .ok cl
        ∧ cl.keepAlive = (lastKeepAlive specs).getD (60 * Second)
        ∧ cl.handshakeTimeout = (lastHandshakeTimeout specs).getD (10 * Second))
      ∧ (∀ (dur : Duration) (c1 : Context) (cl : Client),
          (ClientWithKeepAlive dur c1 cl).1.handshakeTimeout = cl.handshakeTimeout
            ∧ (ClientWithKeepAlive dur c1 cl).1.keepAlive = dur
            ∧ (ClientWithHandshakeTimeout dur c1 cl).1.keepAlive = cl.keepAlive
            ∧ (ClientWithHandshakeTimeout dur c1 cl).1.handshakeTimeout = dur) := by
  refine ⟨?_, fun dur c1 cl => ⟨rfl, rfl, rfl, rfl⟩⟩
  obtain ⟨cl1, h1, h2, h3, _⟩ := applyOptions_specs c specs 0 initialClient
  refine ⟨setClient cl1, ?_, ?_, ?_⟩
  · simp only [NewClient, h1]
  · simpa [setClient, initialClient] using h2
  · simpa [setClient, initialClient] using h3

/-- C8: when option `i` is the first option of the list to return an error, `NewClient`
returns no client together with exactly that error, and the only thing it has done is
invoke options `0, ..., i`, each once: no option after `i` is invoked and `setClient` is
not called.  And `NewClient` returns a client if and only if every option returns nil. -/
theorem NewClient_first_failing_option_aborts (c : Context) (opts : List ClientOption) :
    (∀ (i : Nat) (e : Error),
        (∀ j, j < i → (optionReturns c opts initialClient)[j]? = some none) →
        (optionReturns c opts initialClient)[i]? = some (some e) →
        NewClient c opts = { result := .error e, events := optionEvents 0 (i + 1) })
      ∧ ((∃ cl, (NewClient c opts).result = .ok cl)
          ↔ ∀ r ∈ optionReturns c opts initialClient, r = none) := by
  constructor
  · intro i e hbefore hat
    simp only [NewClient, applyOptions_first_error c opts 0 initialClient i e hbefore hat]
  · rw [← applyOptions_ok_iff c opts 0 initialClient]
    rcases hpair : applyOptions c opts 0 initialClient with ⟨res, evs⟩
    cases res with
    | error e => simp [NewClient, hpair]
    | ok cl1 => simp [NewClient, hpair]

/-- Instance of C8: three options, the second fails: its error is returned, the third
option is not invoked and `setClient` is not called. -/
theorem NewClient_first_failing_option_aborts_witness :
    NewClient liveCtx [ClientWithKeepAlive 5, failOption "bad option", ClientWithHandshakeTimeout 6]
      = { result := .error ⟨"bad option"⟩, events := [.applyOption 0, .applyOption 1] } :=
  (NewClient_first_failing_option_aborts liveCtx
    [ClientWithKeepAlive 5, failOption "bad option", ClientWithHandshakeTimeout 6]).1 1
    ⟨"bad option"⟩
    (fun j hj => by
      have : j = 0 := by omega
      subst this
      rfl)
    rfl

/-! ## The buffer pool -/

/-- C10: a request whose payload is the pooled buffer 7.  Behind a cancelled context `Do`
returns without handing the buffer to `putBuffer`; the same request behind a context that
is not cancelled hands it over exactly once. -/
theorem Do_cancelled_context_leaves_buffer_out_of_pool :
    (Do (scripted [reply 200 "first"]) stubClient cancelledCtx
        (stubRequest 1 (.buffer 7) [])).result = .error ⟨"context canceled"⟩
      ∧ putBufferCalls (Do (scripted [reply 200 "first"]) stubClient cancelledCtx
          (stubRequest 1 (.buffer 7) [])).events = []
      ∧ putBufferCalls (Do (scripted [reply 200 "first"]) stubClient liveCtx
          (stubRequest 1 (.buffer 7) [])).events = [7] := by
  decide

end Fetcher
